import Mathlib

/-!
Shallow embedding of `src/temp_missing.py`: a missing-script reference
checker for a game-engine project tree.  The script has three phases:

1. collector: walk the project root; every file named `*.cs.meta` is opened
   and its first line starting with `guid: ` contributes the stripped text
   after the first colon to the set `script_guids`;
2. scanner: walk the `Assets` subtree; every file whose lower-cased name
   ends in `.prefab`, `.unity` or `.asset` is read whole and searched with
   the compiled pattern
   `m_Script:\s*\{fileID:\s*11500000,\s*guid:\s*([0-9a-f]{32})`
   (IGNORECASE); the first capture whose lower-casing is absent from
   `script_guids` is recorded as `(relpath, guid)` and the file's scan stops;
3. reporter: print the sorted missing records, or a fixed line when none.

Strings are modelled as lists of Unicode code points, matching Python
semantics for comparison, case mapping and membership.  Files are modelled
as records carrying their base name, path relative to the project root and
an optional text (`none` when `open`/`read` raises `OSError`).
-/

set_option maxRecDepth 40000

/-- A Python string: its list of Unicode code points. -/
abbrev Str := List Nat

/-- Code points of a Lean string literal. -/
def str (s : String) : Str := s.data.map Char.toNat

/-- ASCII whitespace: the characters stripped by `str.strip` and matched by
the pattern's `\s` on the inputs considered here (space, tab, newline,
vertical tab, form feed, carriage return). -/
def isSpace (c : Nat) : Bool :=
  c == 32 || c == 9 || c == 10 || c == 11 || c == 12 || c == 13

/-- Lower-casing of one code point (ASCII letters). -/
def lowerChar (c : Nat) : Nat := if 65 ≤ c ∧ c ≤ 90 then c + 32 else c

/-- Python `str.lower`. -/
def pyLower (s : Str) : Str := s.map lowerChar

/-- Python `str.strip`: remove leading and trailing whitespace. -/
def pyStrip (s : Str) : Str :=
  ((s.dropWhile isSpace).reverse.dropWhile isSpace).reverse

/-- Python `s.startswith(p)`: `p` is a prefix of `s` (first argument is the
pattern). -/
def startsWith : Str → Str → Bool
  | [], _ => true
  | _ :: _, [] => false
  | p :: ps, c :: cs => p == c && startsWith ps cs

/-- Python `s.endswith(suf)`, case-sensitive (first argument is the
pattern). -/
def endsWith (suf s : Str) : Bool := startsWith suf.reverse s.reverse

/-- Everything after the first colon (code point 58): the value of
`line.split(':', 1)[1]` for a line that contains a colon. -/
def afterFirstColon : Str → Str
  | [] => []
  | c :: rest => if c == 58 then rest else afterFirstColon rest

/-- Accumulator-passing worker for `splitLines`. -/
def splitLinesAux : Str → Str → List Str
  | [], acc => [acc.reverse]
  | c :: rest, acc =>
    if c == 10 then acc.reverse :: splitLinesAux rest []
    else splitLinesAux rest (c :: acc)

/-- Split a text at newlines (code point 10), newline characters removed:
the lines seen when iterating over a text-mode Python file handle (the
trailing newline of each Python line is stripped away later in every use
the script makes of a line, so it is dropped here once and for all). -/
def splitLines (s : Str) : List Str := splitLinesAux s []

/-- A file visited by a directory walk: base name, path relative to the
project root, and its decoded text — `none` when `open`/`read` raises
`OSError` (`errors='ignore'` already makes decoding total). -/
structure PFile where
  name : Str
  rel : Str
  text : Option Str

/-- The metadata-sidecar suffix tested by the collector. -/
def csMetaSuffix : Str := str (".cs.meta")

/-- The literal line key searched for by the collector. -/
def guidKey : Str := str ("guid: ")

/-- One guid from the lines of a metadata file: the first line starting
with `guid: ` yields the stripped text after its first colon, and the later
lines are never read (`break`); no matching line yields nothing. -/
def metaGuid : List Str → Option Str
  | [] => none
  | l :: rest =>
    if startsWith guidKey l then some (pyStrip (afterFirstColon l))
    else metaGuid rest

/-- The collector's per-file step: a readable file named `*.cs.meta`
contributes the guid of its first `guid: ` line; any other file contributes
nothing. -/
def collectFromFile (f : PFile) : Option Str :=
  if endsWith csMetaSuffix f.name then
    match f.text with
    | none => none
    | some t => metaGuid (splitLines t)
  else none

/-- The collector: the set `script_guids` accumulated over the walked
files. -/
def collectGuids : List PFile → Finset Str
  | [] => ∅
  | f :: rest =>
    match collectFromFile f with
    | some g => insert g (collectGuids rest)
    | none => collectGuids rest

/-- Case-insensitive match of the literal `lit` at the head of `s` (the
pattern is compiled with `re.IGNORECASE`); on success, the rest of `s`. -/
def matchCI : Str → Str → Option Str
  | [], s => some s
  | _ :: _, [] => none
  | l :: ls, c :: cs => if lowerChar c == lowerChar l then matchCI ls cs else none

/-- Greedy `\s*`. -/
def skipSpaces (s : Str) : Str := s.dropWhile isSpace

/-- The character class `[0-9a-f]` under `re.IGNORECASE`. -/
def isHexDigit (c : Nat) : Bool :=
  (48 ≤ c && c ≤ 57) || (97 ≤ c && c ≤ 102) || (65 ≤ c && c ≤ 70)

/-- Exactly `n` hex digits from the head of `s`, together with the rest of
`s`. -/
def takeHex : Nat → Str → Option (Str × Str)
  | 0, s => some ([], s)
  | _ + 1, [] => none
  | n + 1, c :: cs =>
    if isHexDigit c then (takeHex n cs).map (fun p => (c :: p.1, p.2)) else none

/-- Literal token `m_Script:` of the pattern. -/
def mScriptLit : Str := str ("m_Script:")

/-- Literal token `{fileID:` of the pattern. -/
def fileIDLit : Str := str ("\x7bfileID:")

/-- Literal token `11500000,` of the pattern. -/
def numLit : Str := str ("11500000,")

/-- Literal token `guid:` of the pattern. -/
def guidLit : Str := str ("guid:")

/-- One attempt of the compiled pattern at the head of `s`: on success the
32 captured hex digits and the text after the match.  Each `\s*` of the
pattern is followed by a literal starting with a non-space character, so
greedy matching with backtracking is equivalent to skipping every space. -/
def matchRecordAt (s : Str) : Option (Str × Str) :=
  (matchCI mScriptLit s).bind fun s1 =>
  (matchCI fileIDLit (skipSpaces s1)).bind fun s2 =>
  (matchCI numLit (skipSpaces s2)).bind fun s3 =>
  (matchCI guidLit (skipSpaces s3)).bind fun s4 =>
  takeHex 32 (skipSpaces s4)

/-- Fuelled worker for `findMatches`: scan left to right, trying the
pattern at every position; a successful match is consumed whole
(non-overlapping) and its capture collected. -/
def findMatchesAux : Nat → Str → List Str
  | 0, _ => []
  | _ + 1, [] => []
  | fuel + 1, c :: rest =>
    match matchRecordAt (c :: rest) with
    | some (g, after) => g :: findMatchesAux fuel after
    | none => findMatchesAux fuel rest

/-- `pattern.finditer`: the captures of the non-overlapping matches in
order of position.  `s.length` fuel suffices: every step consumes at least
one code point. -/
def findMatches (s : Str) : List Str := findMatchesAux s.length s

/-- The recognized structured-asset extensions. -/
def targetExts : List Str := [str (".prefab"), str (".unity"), str (".asset")]

/-- The scanner's file filter: `name.lower().endswith(target_exts)`. -/
def isAssetName (name : Str) : Bool :=
  targetExts.any (fun e => endsWith e (pyLower name))

/-- The scanner's match loop over one file's lower-cased captures: the
first one absent from the valid set is recorded and the loop breaks. -/
def firstMissing (valid : Finset Str) : List Str → Option Str
  | [] => none
  | g :: gs => if g ∈ valid then firstMissing valid gs else some g

/-- The scanner's per-file step: a file with an unrecognized name or an
unreadable text yields nothing; otherwise the first embedded reference
missing from `valid`, paired with the file's path relative to the root. -/
def scanFile (valid : Finset Str) (f : PFile) : Option (Str × Str) :=
  if isAssetName f.name then
    match f.text with
    | none => none
    | some t =>
      (firstMissing valid ((findMatches t).map pyLower)).map (fun g => (f.rel, g))
  else none

/-- The set `missing` accumulated by the scanner over the walked asset
files, modelled as a duplicate-free list of `(relpath, guid)` records.  The
construction order of a Python set is unobservable (the reporter sorts the
records), so only duplicate-freeness and membership are preserved. -/
def missingList (valid : Finset Str) : List PFile → List (Str × Str)
  | [] => []
  | f :: rest =>
    match scanFile valid f with
    | some p =>
      if p ∈ missingList valid rest then missingList valid rest
      else p :: missingList valid rest
    | none => missingList valid rest

/-- Python string comparison `x < y`: strict lexicographic order by code
point. -/
def strLt : Str → Str → Bool
  | [], [] => false
  | [], _ :: _ => true
  | _ :: _, [] => false
  | a :: xs, b :: ys => if a = b then strLt xs ys else decide (a < b)

/-- Python string comparison `x <= y`. -/
def strLeB (x y : Str) : Bool := strLt x y || decide (x = y)

/-- Python tuple comparison `p <= q` on `(path, guid)` records: by path
first, then by identifier. -/
def recordLeB (p q : Str × Str) : Bool :=
  if p.1 = q.1 then strLeB p.2 q.2 else strLt p.1 q.1

/-- `recordLeB` as a relation, the sort order of the report. -/
def recordLe (p q : Str × Str) : Prop := recordLeB p q = true

instance : DecidableRel recordLe := fun p q =>
  inferInstanceAs (Decidable (recordLeB p q = true))

/-- One output line `rel -> guid`. -/
def lineOf (p : Str × Str) : Str := p.1 ++ str (" -> ") ++ p.2

/-- The line printed when no missing reference was found. -/
def noMissingLine : Str := str ("No missing scripts under Assets")

/-- The whole pipeline: collect the guids from the root walk, scan the
asset walk against them, and print either the sorted missing records or
the single no-findings line. -/
def output (rootFiles assetFiles : List PFile) : List Str :=
  let ms := missingList (collectGuids rootFiles) assetFiles
  if ms = [] then [noMissingLine]
  else (List.insertionSort recordLe ms).map lineOf

/-- An embedded reference fragment: the pattern's literal tokens with
explicit whitespace runs between them and an identifier after them. -/
def recordFrag (w1 w2 w3 w4 hex : Str) : Str :=
  mScriptLit ++ (w1 ++ (fileIDLit ++ (w2 ++ (numLit ++ (w3 ++ (guidLit ++ (w4 ++ hex)))))))

theorem strLt_irrefl (x : Str) : strLt x x = false := by
  induction x with
  | nil => rfl
  | cons a xs ih => simp [strLt, ih]

theorem strLt_trans : ∀ x y z : Str, strLt x y = true → strLt y z = true →
    strLt x z = true
  | [], [], _, h1, _ => by simp [strLt] at h1
  | [], _ :: _, [], _, h2 => by simp [strLt] at h2
  | [], _ :: _, _ :: _, _, _ => rfl
  | _ :: _, [], _, h1, _ => by simp [strLt] at h1
  | _ :: _, _ :: _, [], _, h2 => by simp [strLt] at h2
  | a :: xs, b :: ys, c :: zs, h1, h2 => by
    simp only [strLt] at h1 h2 ⊢
    by_cases hab : a = b
    · subst hab
      by_cases hbc : a = c
      · subst hbc
        rw [if_pos rfl] at h1 h2 ⊢
        exact strLt_trans xs ys zs h1 h2
      · rw [if_pos rfl] at h1
        rw [if_neg hbc] at h2 ⊢
        exact h2
    · by_cases hbc : b = c
      · subst hbc
        rw [if_neg hab] at h1 ⊢
        exact h1
      · rw [if_neg hab] at h1
        rw [if_neg hbc] at h2
        simp only [decide_eq_true_eq] at h1 h2
        have hac : a ≠ c := by omega
        rw [if_neg hac]
        simp only [decide_eq_true_eq]
        omega

theorem strLt_asymm {x y : Str} (h1 : strLt x y = true) (h2 : strLt y x = true) :
    False := by
  have := strLt_trans x y x h1 h2
  rw [strLt_irrefl] at this
  exact Bool.false_ne_true this

theorem strLt_trichotomy : ∀ x y : Str,
    strLt x y = true ∨ x = y ∨ strLt y x = true
  | [], [] => Or.inr (Or.inl rfl)
  | [], _ :: _ => Or.inl rfl
  | _ :: _, [] => Or.inr (Or.inr rfl)
  | a :: xs, b :: ys => by
    by_cases hab : a = b
    · subst hab
      rcases strLt_trichotomy xs ys with h | h | h
      · exact Or.inl (by simp [strLt, h])
      · exact Or.inr (Or.inl (by rw [h]))
      · exact Or.inr (Or.inr (by simp [strLt, h]))
    · have hcmp : a < b ∨ b < a := by omega
      rcases hcmp with h | h
      · exact Or.inl (by simp [strLt, hab, h])
      · exact Or.inr (Or.inr (by simp [strLt, Ne.symm hab, h]))

theorem strLeB_trans {x y z : Str} (h1 : strLeB x y = true)
    (h2 : strLeB y z = true) : strLeB x z = true := by
  simp only [strLeB, Bool.or_eq_true, decide_eq_true_eq] at h1 h2 ⊢
  rcases h1 with h1 | h1
  · rcases h2 with h2 | h2
    · exact Or.inl (strLt_trans x y z h1 h2)
    · exact Or.inl (h2 ▸ h1)
  · exact h1 ▸ h2

theorem strLeB_antisymm {x y : Str} (h1 : strLeB x y = true)
    (h2 : strLeB y x = true) : x = y := by
  simp only [strLeB, Bool.or_eq_true, decide_eq_true_eq] at h1 h2
  rcases h1 with h1 | h1
  · rcases h2 with h2 | h2
    · exact (strLt_asymm h1 h2).elim
    · exact h2.symm
  · exact h1

theorem strLeB_total (x y : Str) : strLeB x y = true ∨ strLeB y x = true := by
  simp only [strLeB, Bool.or_eq_true, decide_eq_true_eq]
  rcases strLt_trichotomy x y with h | h | h
  · exact Or.inl (Or.inl h)
  · exact Or.inl (Or.inr h)
  · exact Or.inr (Or.inl h)

instance : IsTrans (Str × Str) recordLe := by
  constructor
  intro p q r h1 h2
  simp only [recordLe, recordLeB] at h1 h2 ⊢
  by_cases hpq : p.1 = q.1
  · by_cases hqr : q.1 = r.1
    · rw [if_pos hpq] at h1
      rw [if_pos hqr] at h2
      rw [if_pos (hpq.trans hqr)]
      exact strLeB_trans h1 h2
    · rw [if_neg hqr] at h2
      rw [if_neg (hpq ▸ hqr)]
      exact hpq ▸ h2
  · by_cases hqr : q.1 = r.1
    · rw [if_neg hpq] at h1
      rw [if_neg (hqr ▸ hpq)]
      exact hqr ▸ h1
    · rw [if_neg hpq] at h1
      rw [if_neg hqr] at h2
      have hpr : p.1 ≠ r.1 := by
        intro he
        exact strLt_asymm (he ▸ h1) h2
      rw [if_neg hpr]
      exact strLt_trans _ _ _ h1 h2

instance : IsAntisymm (Str × Str) recordLe := by
  constructor
  intro p q h1 h2
  simp only [recordLe, recordLeB] at h1 h2
  by_cases hpq : p.1 = q.1
  · rw [if_pos hpq] at h1
    rw [if_pos hpq.symm] at h2
    exact Prod.ext hpq (strLeB_antisymm h1 h2)
  · rw [if_neg hpq] at h1
    rw [if_neg (Ne.symm hpq)] at h2
    exact (strLt_asymm h1 h2).elim

instance : IsTotal (Str × Str) recordLe := by
  constructor
  intro p q
  simp only [recordLe, recordLeB]
  by_cases hpq : p.1 = q.1
  · rw [if_pos hpq, if_pos hpq.symm]
    exact strLeB_total p.2 q.2
  · rw [if_neg hpq, if_neg (Ne.symm hpq)]
    rcases strLt_trichotomy p.1 q.1 with h | h | h
    · exact Or.inl h
    · exact absurd h hpq
    · exact Or.inr h


theorem optBind_some {α β : Type} (a : α) (f : α → Option β) :
    (Option.some a).bind f = f a := rfl

theorem firstMissing_of_all_mem (valid : Finset Str) :
    ∀ gs : List Str, (∀ g ∈ gs, g ∈ valid) → firstMissing valid gs = none
  | [], _ => rfl
  | g :: gs, h => by
    simp only [firstMissing]
    rw [if_pos (h g (List.mem_cons_self g gs))]
    exact firstMissing_of_all_mem valid gs fun x hx => h x (List.mem_cons_of_mem g hx)

theorem firstMissing_split (valid : Finset Str) :
    ∀ (pre : List Str) (g : Str) (post : List Str),
      (∀ x ∈ pre, x ∈ valid) → g ∉ valid →
      firstMissing valid (pre ++ g :: post) = some g
  | [], g, post, _, hg => by simp [firstMissing, hg]
  | x :: pre, g, post, hpre, hg => by
    simp only [List.cons_append, firstMissing]
    rw [if_pos (hpre x (List.mem_cons_self x pre))]
    exact firstMissing_split valid pre g post
      (fun y hy => hpre y (List.mem_cons_of_mem x hy)) hg

theorem firstMissing_spec (valid : Finset Str) :
    ∀ (gs : List Str) (m : Str), firstMissing valid gs = some m →
      m ∉ valid ∧ m ∈ gs
  | [], m, h => by simp [firstMissing] at h
  | g :: gs, m, h => by
    simp only [firstMissing] at h
    by_cases hg : g ∈ valid
    · rw [if_pos hg] at h
      obtain ⟨h1, h2⟩ := firstMissing_spec valid gs m h
      exact ⟨h1, List.mem_cons_of_mem g h2⟩
    · rw [if_neg hg] at h
      obtain rfl : g = m := Option.some.inj h
      exact ⟨hg, List.mem_cons_self g gs⟩

theorem metaGuid_split :
    ∀ (pre : List Str) (l : Str) (post : List Str),
      (∀ x ∈ pre, startsWith guidKey x = false) → startsWith guidKey l = true →
      metaGuid (pre ++ l :: post) = some (pyStrip (afterFirstColon l))
  | [], l, post, _, hl => by simp [metaGuid, hl]
  | x :: pre, l, post, hpre, hl => by
    have hx := hpre x (List.mem_cons_self x pre)
    simp only [List.cons_append, metaGuid]
    rw [if_neg (by simp [hx])]
    exact metaGuid_split pre l post
      (fun y hy => hpre y (List.mem_cons_of_mem x hy)) hl

theorem metaGuid_none :
    ∀ lines : List Str, (∀ l ∈ lines, startsWith guidKey l = false) →
      metaGuid lines = none
  | [], _ => rfl
  | l :: rest, h => by
    have hl := h l (List.mem_cons_self l rest)
    simp only [metaGuid]
    rw [if_neg (by simp [hl])]
    exact metaGuid_none rest fun x hx => h x (List.mem_cons_of_mem l hx)

theorem collectFromFile_none_of_unreadable {f : PFile} (h : f.text = none) :
    collectFromFile f = none := by
  unfold collectFromFile
  rw [h]
  split <;> rfl

theorem scanFile_none_of_unreadable {valid : Finset Str} {f : PFile}
    (h : f.text = none) : scanFile valid f = none := by
  unfold scanFile
  rw [h]
  split <;> rfl

theorem collectGuids_skip {f : PFile} (h : collectFromFile f = none)
    (xs ys : List PFile) : collectGuids (xs ++ f :: ys) = collectGuids (xs ++ ys) := by
  induction xs with
  | nil => simp [collectGuids, h]
  | cons x xs ih =>
    simp only [List.cons_append, collectGuids, List.append_eq]
    rw [ih]

theorem missingList_skip {valid : Finset Str} {f : PFile}
    (h : scanFile valid f = none) (xs ys : List PFile) :
    missingList valid (xs ++ f :: ys) = missingList valid (xs ++ ys) := by
  induction xs with
  | nil => simp [missingList, h]
  | cons x xs ih =>
    simp only [List.cons_append, missingList, List.append_eq]
    rw [ih]

theorem mem_collectGuids (g : Str) (l : List PFile) :
    g ∈ collectGuids l ↔ ∃ f ∈ l, collectFromFile f = some g := by
  induction l with
  | nil => simp [collectGuids]
  | cons f rest ih =>
    cases hf : collectFromFile f with
    | none =>
      simp only [collectGuids, hf, ih]
      constructor
      · rintro ⟨f1, hf1, hg⟩
        exact ⟨f1, List.mem_cons_of_mem f hf1, hg⟩
      · rintro ⟨f1, hf1, hg⟩
        rcases List.mem_cons.mp hf1 with rfl | hm
        · rw [hf] at hg
          cases hg
        · exact ⟨f1, hm, hg⟩
    | some g1 =>
      simp only [collectGuids, hf, Finset.mem_insert, ih]
      constructor
      · rintro (rfl | ⟨f1, hf1, hg⟩)
        · exact ⟨f, List.mem_cons_self f rest, hf⟩
        · exact ⟨f1, List.mem_cons_of_mem f hf1, hg⟩
      · rintro ⟨f1, hf1, hg⟩
        rcases List.mem_cons.mp hf1 with rfl | hm
        · rw [hf] at hg
          exact Or.inl (Option.some.inj hg).symm
        · exact Or.inr ⟨f1, hm, hg⟩

theorem collectGuids_perm {l1 l2 : List PFile} (h : l1.Perm l2) :
    collectGuids l1 = collectGuids l2 := by
  induction h with
  | nil => rfl
  | cons x _ ih =>
    simp only [collectGuids]
    cases collectFromFile x <;> simp [ih]
  | swap x y l =>
    simp only [collectGuids]
    cases collectFromFile x <;> cases collectFromFile y <;>
      simp [Finset.Insert.comm]
  | trans _ _ ih1 ih2 => exact ih1.trans ih2

theorem mem_missingList (p : Str × Str) (valid : Finset Str) (l : List PFile) :
    p ∈ missingList valid l ↔ ∃ f ∈ l, scanFile valid f = some p := by
  induction l with
  | nil => simp [missingList]
  | cons f rest ih =>
    cases hf : scanFile valid f with
    | none =>
      simp only [missingList, hf, ih]
      constructor
      · rintro ⟨f1, hf1, hp⟩
        exact ⟨f1, List.mem_cons_of_mem f hf1, hp⟩
      · rintro ⟨f1, hf1, hp⟩
        rcases List.mem_cons.mp hf1 with rfl | hm
        · rw [hf] at hp
          cases hp
        · exact ⟨f1, hm, hp⟩
    | some p1 =>
      have hstep : p ∈ missingList valid (f :: rest) ↔ p = p1 ∨ p ∈ missingList valid rest := by
        simp only [missingList, hf]
        by_cases hmem : p1 ∈ missingList valid rest
        · rw [if_pos hmem]
          constructor
          · exact fun hp => Or.inr hp
          · rintro (rfl | hp)
            · exact hmem
            · exact hp
        · rw [if_neg hmem]
          exact List.mem_cons
      rw [hstep, ih]
      constructor
      · rintro (rfl | ⟨f1, hf1, hp⟩)
        · exact ⟨f, List.mem_cons_self f rest, hf⟩
        · exact ⟨f1, List.mem_cons_of_mem f hf1, hp⟩
      · rintro ⟨f1, hf1, hp⟩
        rcases List.mem_cons.mp hf1 with rfl | hm
        · rw [hf] at hp
          exact Or.inl (Option.some.inj hp).symm
        · exact Or.inr ⟨f1, hm, hp⟩

theorem missingList_nodup (valid : Finset Str) (l : List PFile) :
    (missingList valid l).Nodup := by
  induction l with
  | nil => exact List.nodup_nil
  | cons f rest ih =>
    cases hf : scanFile valid f with
    | none => simpa only [missingList, hf] using ih
    | some p =>
      simp only [missingList, hf]
      by_cases hmem : p ∈ missingList valid rest
      · rw [if_pos hmem]
        exact ih
      · rw [if_neg hmem]
        exact List.nodup_cons.mpr ⟨hmem, ih⟩

theorem matchCI_self_append : ∀ lit r : Str, matchCI lit (lit ++ r) = some r
  | [], _ => rfl
  | l :: ls, r => by
    rw [List.cons_append]
    simp only [matchCI]
    rw [if_pos (beq_self_eq_true (lowerChar l))]
    exact matchCI_self_append ls r

theorem skipSpaces_ws_append {w : Str} (hw : ∀ c ∈ w, isSpace c = true)
    (t : Str) : skipSpaces (w ++ t) = skipSpaces t := by
  induction w with
  | nil => rfl
  | cons c cs ih =>
    have hc := hw c (List.mem_cons_self c cs)
    rw [List.cons_append]
    show List.dropWhile isSpace (c :: (cs ++ t)) = skipSpaces t
    rw [List.dropWhile_cons, if_pos hc]
    exact ih fun x hx => hw x (List.mem_cons_of_mem c hx)

theorem skipSpaces_cons_false {c : Nat} (hc : isSpace c = false) (t : Str) :
    skipSpaces (c :: t) = c :: t := by
  show List.dropWhile isSpace (c :: t) = c :: t
  rw [List.dropWhile_cons, if_neg (by simp [hc])]

theorem takeHex_exact : ∀ hex r : Str, (∀ c ∈ hex, isHexDigit c = true) →
    takeHex hex.length (hex ++ r) = some (hex, r)
  | [], _, _ => rfl
  | c :: cs, r, h => by
    have hc := h c (List.mem_cons_self c cs)
    simp only [List.length_cons, List.cons_append, takeHex, List.append_eq]
    rw [if_pos hc, takeHex_exact cs r fun x hx => h x (List.mem_cons_of_mem c hx)]
    rfl

theorem hex_not_space {c : Nat} (h : isHexDigit c = true) : isSpace c = false := by
  simp only [isHexDigit, Bool.or_eq_true, Bool.and_eq_true, decide_eq_true_eq] at h
  simp only [isSpace, Bool.or_eq_false_iff, beq_eq_false_iff_ne, ne_eq]
  omega

theorem stageCI {lit : Str} {c0 : Nat} {lt : Str} (hlit : lit = c0 :: lt)
    (hc : isSpace c0 = false) {w : Str} (hw : ∀ c ∈ w, isSpace c = true)
    (t : Str) : matchCI lit (skipSpaces (w ++ (lit ++ t))) = some t := by
  rw [skipSpaces_ws_append hw, hlit, List.cons_append, skipSpaces_cons_false hc]
  rw [← List.cons_append]
  exact matchCI_self_append (c0 :: lt) t

theorem matchRecordAt_nil : matchRecordAt [] = none := rfl

theorem mScriptLit_eq : mScriptLit = 109 :: str ("_Script:") := rfl

theorem fileIDLit_eq : fileIDLit = 123 :: str ("fileID:") := rfl

theorem numLit_eq : numLit = 49 :: str ("1500000,") := rfl

theorem guidLit_eq : guidLit = 103 :: str ("uid:") := rfl

theorem takeHex_after_spaces {w hex : Str} (hw : ∀ c ∈ w, isSpace c = true)
    (hlen : hex.length = 32) (hhex : ∀ c ∈ hex, isHexDigit c = true)
    (tail : Str) : takeHex 32 (skipSpaces (w ++ (hex ++ tail))) = some (hex, tail) := by
  rw [skipSpaces_ws_append hw]
  obtain ⟨c0, hex0, rfl⟩ : ∃ c0 hex0, hex = c0 :: hex0 := by
    cases hex with
    | nil => simp at hlen
    | cons a b => exact ⟨a, b, rfl⟩
  rw [List.cons_append,
    skipSpaces_cons_false (hex_not_space (hhex c0 (List.mem_cons_self c0 hex0)))]
  rw [← List.cons_append, ← hlen]
  exact takeHex_exact (c0 :: hex0) tail hhex

theorem matchRecordAt_frag {w1 w2 w3 w4 hex : Str}
    (hw1 : ∀ c ∈ w1, isSpace c = true) (hw2 : ∀ c ∈ w2, isSpace c = true)
    (hw3 : ∀ c ∈ w3, isSpace c = true) (hw4 : ∀ c ∈ w4, isSpace c = true)
    (hlen : hex.length = 32) (hhex : ∀ c ∈ hex, isHexDigit c = true)
    (tail : Str) :
    matchRecordAt (recordFrag w1 w2 w3 w4 hex ++ tail) = some (hex, tail) := by
  unfold recordFrag matchRecordAt
  simp only [List.append_assoc]
  rw [matchCI_self_append, optBind_some]
  rw [stageCI fileIDLit_eq rfl hw1, optBind_some]
  rw [stageCI numLit_eq rfl hw2, optBind_some]
  rw [stageCI guidLit_eq rfl hw3, optBind_some]
  exact takeHex_after_spaces hw4 hlen hhex tail

theorem findMatchesAux_nil : ∀ n, findMatchesAux n [] = []
  | 0 => rfl
  | _ + 1 => rfl

theorem findMatches_eq_of_match {s g a : Str} (h : matchRecordAt s = some (g, a)) :
    findMatches s = g :: findMatchesAux (s.length - 1) a := by
  cases s with
  | nil =>
    rw [matchRecordAt_nil] at h
    cases h
  | cons c rest =>
    show findMatchesAux (c :: rest).length (c :: rest) = _
    simp only [List.length_cons, Nat.add_sub_cancel]
    simp only [findMatchesAux, h]

theorem findMatches_frag {w1 w2 w3 w4 hex : Str}
    (hw1 : ∀ c ∈ w1, isSpace c = true) (hw2 : ∀ c ∈ w2, isSpace c = true)
    (hw3 : ∀ c ∈ w3, isSpace c = true) (hw4 : ∀ c ∈ w4, isSpace c = true)
    (hlen : hex.length = 32) (hhex : ∀ c ∈ hex, isHexDigit c = true) :
    findMatches (recordFrag w1 w2 w3 w4 hex) = [hex] := by
  have hm := matchRecordAt_frag hw1 hw2 hw3 hw4 hlen hhex []
  rw [List.append_nil] at hm
  rw [findMatches_eq_of_match hm, findMatchesAux_nil]

theorem scanFile_eq {valid : Finset Str} {f : PFile} {t : Str}
    (hn : isAssetName f.name = true) (ht : f.text = some t) :
    scanFile valid f =
      (firstMissing valid ((findMatches t).map pyLower)).map (fun g => (f.rel, g)) := by
  unfold scanFile
  rw [if_pos hn, ht]

theorem scanFile_none_of_name {valid : Finset Str} {f : PFile}
    (hn : ¬ isAssetName f.name = true) : scanFile valid f = none := by
  unfold scanFile
  rw [if_neg hn]

/-- C1: for an asset file whose content contains at least one embedded
reference to an identifier absent from the valid set, the scanner records
exactly one missing record for that file — `scanFile` yields exactly the
first missing occurrence in file order, present references before it do not
stop the scan, and the result does not depend on what follows it.  The
record, and only it, enters the accumulated missing set. -/
theorem scanner_records_first_missing (valid : Finset Str) (f : PFile)
    (t : Str) (pre : List Str) (g : Str) (post : List Str)
    (hn : isAssetName f.name = true) (ht : f.text = some t)
    (hsplit : (findMatches t).map pyLower = pre ++ g :: post)
    (hpre : ∀ x ∈ pre, x ∈ valid) (hg : g ∉ valid) :
    scanFile valid f = some (f.rel, g) ∧
    ∀ rest : List PFile, (f.rel, g) ∈ missingList valid (f :: rest) := by
  have hscan : scanFile valid f = some (f.rel, g) := by
    rw [scanFile_eq hn ht, hsplit, firstMissing_split valid pre g post hpre hg]
    rfl
  refine ⟨hscan, fun rest => ?_⟩
  rw [mem_missingList]
  exact ⟨f, List.mem_cons_self f rest, hscan⟩

def contentC1 : Str :=
  str ("m_Script: \x7bfileID: 11500000, guid: aaaaaaaaaaaaaaaaaaaaaaaaaaaaaaaa\x7d m_Script: \x7bfileID: 11500000, guid: BBBBbbbbbbbbbbbbbbbbbbbbbbbbbbbb\x7d")

def assetC1 : PFile := ⟨str ("x.prefab"), str ("Assets/x.prefab"), some contentC1⟩

def validC1 : Finset Str := {str ("aaaaaaaaaaaaaaaaaaaaaaaaaaaaaaaa")}

/-- C1 witness: a file with one valid reference followed by one missing
reference (written in mixed case) yields exactly the record of the second
reference, lower-cased. -/
theorem scanner_records_first_missing_witness :
    scanFile validC1 assetC1 =
      some (str ("Assets/x.prefab"), str ("bbbbbbbbbbbbbbbbbbbbbbbbbbbbbbbb")) ∧
    (str ("Assets/x.prefab"), str ("bbbbbbbbbbbbbbbbbbbbbbbbbbbbbbbb"))
      ∈ missingList validC1 [assetC1] := by
  have h := scanner_records_first_missing validC1 assetC1 contentC1
    [str ("aaaaaaaaaaaaaaaaaaaaaaaaaaaaaaaa")]
    (str ("bbbbbbbbbbbbbbbbbbbbbbbbbbbbbbbb")) []
    (by decide) rfl (by decide) (by decide) (by decide)
  exact ⟨h.1, h.2 []⟩

/-- C2: for a readable file named with the metadata-sidecar suffix, the
collector inserts into its result set the whitespace-trimmed text after the
first colon of the first line beginning with `guid: `, never reading the
later lines (the result does not depend on them); a file with no such line
contributes nothing. -/
theorem collector_extracts_first_guid_line (f : PFile) (rest : List PFile)
    (t : Str) (hn : endsWith csMetaSuffix f.name = true) (ht : f.text = some t) :
    (∀ pre l post, splitLines t = pre ++ l :: post →
       (∀ x ∈ pre, startsWith guidKey x = false) →
       startsWith guidKey l = true →
       collectGuids (f :: rest) =
         insert (pyStrip (afterFirstColon l)) (collectGuids rest)) ∧
    ((∀ l ∈ splitLines t, startsWith guidKey l = false) →
       collectGuids (f :: rest) = collectGuids rest) := by
  have hcf : collectFromFile f = metaGuid (splitLines t) := by
    unfold collectFromFile
    rw [if_pos hn, ht]
  constructor
  · intro pre l post hs hpre hl
    have hm : collectFromFile f = some (pyStrip (afterFirstColon l)) := by
      rw [hcf, hs]
      exact metaGuid_split pre l post hpre hl
    simp [collectGuids, hm]
  · intro hnone
    have hm : collectFromFile f = none := by
      rw [hcf]
      exact metaGuid_none _ hnone
    simp [collectGuids, hm]

def metaC2 : PFile :=
  ⟨str ("Foo.cs.meta"), str ("Foo.cs.meta"),
   some (str ("fileFormatVersion: 2\nguid: 0123456789abcdef0123456789abcdef\nMonoImporter: x"))⟩

/-- C2 witness: a sidecar file with a `guid: ` line between two other lines
contributes exactly its trimmed guid. -/
theorem collector_extracts_first_guid_line_witness :
    collectGuids [metaC2] = {str ("0123456789abcdef0123456789abcdef")} := by
  have h := (collector_extracts_first_guid_line metaC2 [] _ (by decide) rfl).1
    [str ("fileFormatVersion: 2")]
    (str ("guid: 0123456789abcdef0123456789abcdef"))
    [str ("MonoImporter: x")] (by decide) (by decide) (by decide)
  exact h

/-- C4: a file whose open or read fails (`OSError`) is silently skipped by
both the collector and the scanner: the functions are total (no error
propagates), and removing the unreadable file from either walk leaves the
collected set and the missing records unchanged — in particular everything
accumulated from the other files is untouched. -/
theorem unreadable_files_skipped (valid : Finset Str) (f : PFile)
    (xs ys : List PFile) (h : f.text = none) :
    collectGuids (xs ++ f :: ys) = collectGuids (xs ++ ys) ∧
    missingList valid (xs ++ f :: ys) = missingList valid (xs ++ ys) :=
  ⟨collectGuids_skip (collectFromFile_none_of_unreadable h) xs ys,
   missingList_skip (scanFile_none_of_unreadable h) xs ys⟩

def unreadableC4 : PFile := ⟨str ("Bad.cs.meta"), str ("Bad.cs.meta"), none⟩

/-- C4 witness: an unreadable sidecar file between two walks' worth of
files changes neither the collected set nor the missing records. -/
theorem unreadable_files_skipped_witness :
    collectGuids [metaC2, unreadableC4] = collectGuids [metaC2] ∧
    missingList ∅ [metaC2, unreadableC4, assetC1] = missingList ∅ [metaC2, assetC1] :=
  ⟨(unreadable_files_skipped ∅ unreadableC4 [metaC2] [] rfl).1,
   (unreadable_files_skipped ∅ unreadableC4 [metaC2] [assetC1] rfl).2⟩

/-- C5: when no missing reference was found the output is exactly the
single no-findings line; otherwise it is one line `rel -> guid` per
deduplicated record, enumerating exactly the missing records in an order
sorted by file path and then by identifier. -/
theorem reporter_output_format (rootFiles assetFiles : List PFile) :
    (missingList (collectGuids rootFiles) assetFiles = [] →
       output rootFiles assetFiles = [noMissingLine]) ∧
    (missingList (collectGuids rootFiles) assetFiles ≠ [] →
       ∃ ps : List (Str × Str),
         output rootFiles assetFiles = ps.map lineOf ∧
         ps.Sorted recordLe ∧ ps.Nodup ∧
         (∀ p, p ∈ ps ↔ p ∈ missingList (collectGuids rootFiles) assetFiles)) := by
  constructor
  · intro h
    simp only [output]
    rw [if_pos h]
  · intro h
    refine ⟨List.insertionSort recordLe (missingList (collectGuids rootFiles) assetFiles),
      ?_, ?_, ?_, ?_⟩
    · simp only [output]
      rw [if_neg h]
    · exact List.sorted_insertionSort recordLe _
    · exact (List.perm_insertionSort recordLe _).nodup_iff.mpr (missingList_nodup _ _)
    · intro p
      exact List.mem_insertionSort recordLe

/-- C5 witness: with no files at all, the output is the single line. -/
theorem reporter_output_format_witness :
    output [] [] = [noMissingLine] :=
  (reporter_output_format [] []).1 rfl

/-- C6: the scanner lower-cases each embedded identifier before the
membership comparison, so a reference whose lower-cased guid is in the
valid set is never reported: a file all of whose references pass yields no
record at all and contributes nothing to the missing set, and no recorded
pair ever names a passing reference's lowered guid. -/
theorem scanner_lowercases_before_compare (valid : Finset Str) (f : PFile)
    (t : Str) (ht : f.text = some t) :
    ((∀ g ∈ findMatches t, pyLower g ∈ valid) → scanFile valid f = none) ∧
    (∀ g ∈ findMatches t, pyLower g ∈ valid →
       ∀ rel, scanFile valid f ≠ some (rel, pyLower g)) ∧
    ((∀ g ∈ findMatches t, pyLower g ∈ valid) →
       ∀ rest, missingList valid (f :: rest) = missingList valid rest) := by
  have hnone : (∀ g ∈ findMatches t, pyLower g ∈ valid) → scanFile valid f = none := by
    intro hall
    by_cases hn : isAssetName f.name = true
    · rw [scanFile_eq hn ht]
      have h1 : firstMissing valid ((findMatches t).map pyLower) = none := by
        apply firstMissing_of_all_mem
        intro x hx
        obtain ⟨g, hg, rfl⟩ := List.mem_map.mp hx
        exact hall g hg
      rw [h1]
      rfl
    · exact scanFile_none_of_name hn
  refine ⟨hnone, ?_, ?_⟩
  · intro g hg hmem rel heq
    by_cases hn : isAssetName f.name = true
    · rw [scanFile_eq hn ht] at heq
      cases hfm : firstMissing valid ((findMatches t).map pyLower) with
      | none =>
        rw [hfm] at heq
        cases heq
      | some m =>
        rw [hfm] at heq
        have hmva := (firstMissing_spec valid _ m hfm).1
        have hms : m = pyLower g := congrArg Prod.snd (Option.some.inj heq)
        exact hmva (hms ▸ hmem)
    · rw [scanFile_none_of_name hn] at heq
      cases heq
  · intro hall rest
    simp [missingList, hnone hall]

def assetC6 : PFile :=
  ⟨str ("u.unity"), str ("Assets/u.unity"),
   some (str ("m_Script: \x7bfileID: 11500000, guid: ABCDEF0123456789ABCDEF0123456789\x7d"))⟩

/-- C6 witness: a reference written in uppercase hex whose lowercase form
was collected is not reported. -/
theorem scanner_lowercases_before_compare_witness :
    scanFile {str ("abcdef0123456789abcdef0123456789")} assetC6 = none ∧
    missingList {str ("abcdef0123456789abcdef0123456789")} [assetC6] =
      missingList {str ("abcdef0123456789abcdef0123456789")} [] := by
  have h := scanner_lowercases_before_compare
    {str ("abcdef0123456789abcdef0123456789")} assetC6 _ rfl
  exact ⟨h.1 (by decide), h.2.2 (by decide) []⟩

/-- C7: the collector's result is a set determined by the collection of
walked files alone: any permutation of the walk order yields the same set,
and its members are exactly the guids contributed by some walked file. -/
theorem collector_order_independent :
    (∀ l1 l2 : List PFile, l1.Perm l2 → collectGuids l1 = collectGuids l2) ∧
    (∀ (l : List PFile) (g : Str),
       g ∈ collectGuids l ↔ ∃ f ∈ l, collectFromFile f = some g) :=
  ⟨fun _ _ h => collectGuids_perm h, fun l g => mem_collectGuids g l⟩

def metaC7 : PFile :=
  ⟨str ("Bar.cs.meta"), str ("Bar.cs.meta"),
   some (str ("guid: ffffffffffffffffffffffffffffffff"))⟩

/-- C7 witness: swapping the visitation order of two sidecar files leaves
the collected set unchanged. -/
theorem collector_order_independent_witness :
    collectGuids [metaC2, metaC7] = collectGuids [metaC7, metaC2] :=
  collector_order_independent.1 [metaC2, metaC7] [metaC7, metaC2]
    (List.Perm.swap metaC7 metaC2 [])

/-- C8: the pipeline's output is determined by the contents of the two
walked file collections alone: two runs over the same unchanged tree, even
with the directory walks enumerating files in different orders, print the
same lines. -/
theorem pipeline_deterministic (r1 r2 a1 a2 : List PFile)
    (hr : r1.Perm r2) (ha : a1.Perm a2) : output r1 a1 = output r2 a2 := by
  have hv : collectGuids r1 = collectGuids r2 := collectGuids_perm hr
  have hmm : ∀ p, p ∈ missingList (collectGuids r1) a1 ↔
      p ∈ missingList (collectGuids r1) a2 := by
    intro p
    rw [mem_missingList, mem_missingList]
    constructor
    · rintro ⟨f, hf, hs⟩
      exact ⟨f, ha.mem_iff.mp hf, hs⟩
    · rintro ⟨f, hf, hs⟩
      exact ⟨f, ha.mem_iff.mpr hf, hs⟩
  have hperm : (missingList (collectGuids r1) a1).Perm
      (missingList (collectGuids r1) a2) :=
    (List.perm_ext_iff_of_nodup (missingList_nodup _ _) (missingList_nodup _ _)).mpr hmm
  simp only [output]
  rw [← hv]
  by_cases hempty : missingList (collectGuids r1) a1 = []
  · have h2 : missingList (collectGuids r1) a2 = [] :=
      (hempty ▸ hperm).symm.eq_nil
    rw [if_pos hempty, if_pos h2]
  · have h2 : missingList (collectGuids r1) a2 ≠ [] := by
      intro h0
      exact hempty (h0 ▸ hperm.symm).symm.eq_nil
    rw [if_neg hempty, if_neg h2]
    congr 1
    exact List.eq_of_perm_of_sorted
      ((List.perm_insertionSort recordLe _).trans
        (hperm.trans (List.perm_insertionSort recordLe _).symm))
      (List.sorted_insertionSort recordLe _)
      (List.sorted_insertionSort recordLe _)

/-- C8 witness: a concrete tree walked in two different orders prints the
same report. -/
theorem pipeline_deterministic_witness :
    output [metaC2, metaC7] [assetC1, assetC6] =
      output [metaC7, metaC2] [assetC6, assetC1] :=
  pipeline_deterministic [metaC2, metaC7] [metaC7, metaC2] [assetC1, assetC6]
    [assetC6, assetC1] (List.Perm.swap metaC7 metaC2 [])
    (List.Perm.swap assetC6 assetC1 [])

/-- C3 counterexample: in the fragment shape
`m_Script: {fileID: 11500000, guid: <hex32>`, whitespace is not
insignificant between arbitrary adjacent tokens — inserting one space
between the brace and `fileID` makes the pattern reject the fragment that
it accepts without that space. -/
theorem scanner_whitespace_counterexample :
    findMatches (str ("m_Script: \x7bfileID: 11500000, guid: aaaaaaaaaaaaaaaaaaaaaaaaaaaaaaaa"))
      = [str ("aaaaaaaaaaaaaaaaaaaaaaaaaaaaaaaa")] ∧
    findMatches (str ("m_Script: \x7b fileID: 11500000, guid: aaaaaaaaaaaaaaaaaaaaaaaaaaaaaaaa"))
      = [] := by
  constructor
  · decide
  · decide

/-- C3 amended: whitespace (any amount, including none) is insignificant
exactly after the tokens `m_Script:`, `{fileID:`, `11500000,` and `guid:`;
for every fragment built from those four literal tokens with arbitrary
whitespace runs in those four gaps followed by 32 hex digits, the scanner
extracts the identifier. -/
theorem scanner_whitespace_in_gaps (w1 w2 w3 w4 hex : Str)
    (hw1 : ∀ c ∈ w1, isSpace c = true) (hw2 : ∀ c ∈ w2, isSpace c = true)
    (hw3 : ∀ c ∈ w3, isSpace c = true) (hw4 : ∀ c ∈ w4, isSpace c = true)
    (hlen : hex.length = 32) (hhex : ∀ c ∈ hex, isHexDigit c = true) :
    findMatches (recordFrag w1 w2 w3 w4 hex) = [hex] :=
  findMatches_frag hw1 hw2 hw3 hw4 hlen hhex

/-- C3 witness: a fragment with a space, no whitespace, two spaces and a
tab in the four gaps, and a mixed-case identifier, is matched and its
identifier extracted. -/
theorem scanner_whitespace_in_gaps_witness :
    findMatches (recordFrag [32] [] [32, 32] [9]
        (str ("ABCDEFabcdef0123456789abcdef0123")))
      = [str ("ABCDEFabcdef0123456789abcdef0123")] :=
  scanner_whitespace_in_gaps [32] [] [32, 32] [9]
    (str ("ABCDEFabcdef0123456789abcdef0123"))
    (by decide) (by decide) (by decide) (by decide) (by decide) (by decide)

theorem dropWhile_all_false {p : Nat → Bool} :
    ∀ l : Str, (∀ c ∈ l, p c = false) → l.dropWhile p = l
  | [], _ => rfl
  | c :: cs, h => by
    rw [List.dropWhile_cons, if_neg (by simp [h c (List.mem_cons_self c cs)])]

theorem pyStrip_clean {s : Str} (h : ∀ c ∈ s, isSpace c = false) :
    pyStrip (32 :: s) = s := by
  unfold pyStrip
  have h1 : List.dropWhile isSpace (32 :: s) = List.dropWhile isSpace s := by
    rw [List.dropWhile_cons, if_pos (show isSpace 32 = true from rfl)]
  rw [h1, dropWhile_all_false s h,
    dropWhile_all_false _ (fun c hc => h c (List.mem_reverse.mp hc)),
    List.reverse_reverse]

theorem splitLinesAux_no_nl : ∀ s acc : Str, (∀ c ∈ s, c ≠ 10) →
    splitLinesAux s acc = [acc.reverse ++ s]
  | [], acc, _ => by simp [splitLinesAux]
  | c :: rest, acc, h => by
    have hc := h c (List.mem_cons_self c rest)
    simp only [splitLinesAux]
    rw [if_neg (by simp [hc])]
    rw [splitLinesAux_no_nl rest (c :: acc) fun x hx => h x (List.mem_cons_of_mem c hx)]
    simp

theorem splitLines_single {s : Str} (h : ∀ c ∈ s, c ≠ 10) :
    splitLines s = [s] := by
  unfold splitLines
  rw [splitLinesAux_no_nl s [] h]
  rfl

theorem startsWith_self_append : ∀ p s : Str, startsWith p (p ++ s) = true
  | [], _ => rfl
  | c :: cs, s => by
    rw [List.cons_append]
    simp only [startsWith, beq_self_eq_true, Bool.true_and]
    exact startsWith_self_append cs s

/-- C9 amended: case normalization is one-sided — the collector stores a
sidecar guid exactly as read (modulo stripping), without lower-casing it,
while the scanner lower-cases every capture before comparing; hence a
collected guid containing an uppercase letter is never equal to any
compared identifier, membership through it never succeeds, and when it is
the only collected guid the first reference of every scanned file is
flagged missing (the per-file short-circuit reports the first missing
reference of each file, not necessarily every reference to that guid). -/
theorem collector_case_one_sided (G : Str) (hup : ∃ c ∈ G, 65 ≤ c ∧ c ≤ 90) :
    (∀ g : Str, pyLower g ≠ G) ∧
    (∀ (valid : Finset Str) (g : Str),
       pyLower g ∈ valid ↔ pyLower g ∈ valid.erase G) ∧
    (∀ t g gs, findMatches t = g :: gs →
       firstMissing {G} ((findMatches t).map pyLower) = some (pyLower g)) ∧
    (∀ n rel G0 : Str, endsWith csMetaSuffix n = true →
       (∀ c ∈ G0, isSpace c = false) →
       collectFromFile ⟨n, rel, some (guidKey ++ G0)⟩ = some G0) := by
  have h1 : ∀ g : Str, pyLower g ≠ G := by
    intro g heq
    obtain ⟨c, hc, hc1, hc2⟩ := hup
    rw [← heq] at hc
    obtain ⟨b, _, hb⟩ := List.mem_map.mp hc
    unfold lowerChar at hb
    split_ifs at hb <;> omega
  refine ⟨h1, ?_, ?_, ?_⟩
  · intro valid g
    rw [Finset.mem_erase]
    exact ⟨fun h => ⟨h1 g, h⟩, And.right⟩
  · intro t g gs hfm
    rw [hfm]
    simp only [List.map_cons, firstMissing]
    rw [if_neg (by simp [h1 g])]
  · intro n rel G0 hn hns
    have hnl : ∀ c ∈ guidKey ++ G0, c ≠ 10 := by
      intro c hc
      rcases List.mem_append.mp hc with h | h
      · have hval : ∀ c ∈ guidKey, c ≠ 10 := by decide
        exact hval c h
      · intro h10
        have hsp := hns c h
        rw [h10] at hsp
        exact absurd hsp (by decide)
    unfold collectFromFile
    rw [if_pos hn]
    show metaGuid (splitLines (guidKey ++ G0)) = some G0
    rw [splitLines_single hnl]
    simp only [metaGuid]
    rw [if_pos (startsWith_self_append guidKey G0)]
    have hafc : afterFirstColon (guidKey ++ G0) = 32 :: G0 := rfl
    rw [hafc, pyStrip_clean hns]

def contentC9 : Str :=
  str ("m_Script: \x7bfileID: 11500000, guid: dddddddddddddddddddddddddddddddd\x7d\nm_Script: \x7bfileID: 11500000, guid: AAAABBBBCCCCDDDDEEEEFFFF00001111\x7d")

def metaC9 : PFile :=
  ⟨str ("Up.cs.meta"), str ("Up.cs.meta"),
   some (str ("guid: AAAABBBBCCCCDDDDEEEEFFFF00001111"))⟩

def assetC9 : PFile := ⟨str ("y.prefab"), str ("Assets/y.prefab"), some contentC9⟩

/-- C9 counterexample: a sidecar declares an uppercase guid, an asset file
contains a reference to that exact guid, yet no missing record naming it
(in original or lowered case) is produced — the per-file short-circuit
already recorded the file's earlier missing reference — refuting "every
asset reference to that guid is reported missing". -/
theorem collector_case_counterexample :
    str ("AAAABBBBCCCCDDDDEEEEFFFF00001111") ∈ collectGuids [metaC9] ∧
    str ("AAAABBBBCCCCDDDDEEEEFFFF00001111") ∈ findMatches contentC9 ∧
    (str ("Assets/y.prefab"), str ("aaaabbbbccccddddeeeeffff00001111"))
      ∉ missingList (collectGuids [metaC9]) [assetC9] ∧
    (str ("Assets/y.prefab"), str ("AAAABBBBCCCCDDDDEEEEFFFF00001111"))
      ∉ missingList (collectGuids [metaC9]) [assetC9] ∧
    missingList (collectGuids [metaC9]) [assetC9] =
      [(str ("Assets/y.prefab"), str ("dddddddddddddddddddddddddddddddd"))] := by
  refine ⟨by decide, by decide, by decide, by decide, by decide⟩

/-- C9 witness: the amended statement applied to the uppercase guid of the
counterexample: its lowering never equals it, and the collector stores it
uppercased as read. -/
theorem collector_case_one_sided_witness :
    pyLower (str ("AAAABBBBCCCCDDDDEEEEFFFF00001111"))
      ≠ str ("AAAABBBBCCCCDDDDEEEEFFFF00001111") ∧
    collectFromFile ⟨str ("Up.cs.meta"), str ("Up.cs.meta"),
        some (guidKey ++ str ("AAAABBBBCCCCDDDDEEEEFFFF00001111"))⟩
      = some (str ("AAAABBBBCCCCDDDDEEEEFFFF00001111")) := by
  have h := collector_case_one_sided (str ("AAAABBBBCCCCDDDDEEEEFFFF00001111"))
    ⟨65, by decide, by decide⟩
  exact ⟨h.1 _, h.2.2.2 (str ("Up.cs.meta")) (str ("Up.cs.meta")) _
    (by decide) (by decide)⟩

/-- C10: the metadata-sidecar suffix test is case-sensitive — a file whose
name does not end in the exact lowercase `.cs.meta` (e.g. `Foo.CS.META`)
contributes nothing to the collector — while the asset-extension test
lower-cases the name first, so it is case-insensitive (e.g. `Foo.PREFAB`
qualifies, and the filter cannot distinguish a name from its lowering). -/
theorem name_filter_case_sensitivity :
    (∀ (f : PFile) (rest : List PFile), endsWith csMetaSuffix f.name = false →
       collectGuids (f :: rest) = collectGuids rest) ∧
    endsWith csMetaSuffix (str ("Foo.CS.META")) = false ∧
    isAssetName (str ("Foo.PREFAB")) = true ∧
    (∀ name : Str, isAssetName name = isAssetName (pyLower name)) := by
  refine ⟨?_, by decide, by decide, ?_⟩
  · intro f rest hn
    have hcf : collectFromFile f = none := by
      unfold collectFromFile
      rw [if_neg (by simp [hn])]
    simp [collectGuids, hcf]
  · intro name
    have hidem : pyLower (pyLower name) = pyLower name := by
      simp only [pyLower, List.map_map]
      apply List.map_congr_left
      intro a _
      simp only [Function.comp_apply]
      unfold lowerChar
      split_ifs <;> omega
    unfold isAssetName
    rw [hidem]

/-- C10 witness: an uppercase-suffixed sidecar with a perfectly good guid
line is skipped by the collector. -/
theorem name_filter_case_sensitivity_witness :
    collectGuids [⟨str ("Foo.CS.META"), str ("Foo.CS.META"),
        some (str ("guid: eeeeeeeeeeeeeeeeeeeeeeeeeeeeeeee"))⟩]
      = collectGuids [] :=
  name_filter_case_sensitivity.1
    ⟨str ("Foo.CS.META"), str ("Foo.CS.META"),
     some (str ("guid: eeeeeeeeeeeeeeeeeeeeeeeeeeeeeeee"))⟩ [] (by decide)
